import Mathlib

/-!
Verification of the masked running normalizer (`Norm` / `ConditionedNorm`)
from padertorch/contrib/je/modules/norm.py.

Modelling conventions (shallow embedding):
* Float tensors are modelled with exact rationals.  A tensor of layout
  "bct" (batch, channel, time) is a total function on natural-number
  indices; the batch size B, channel size C and time size T are carried
  separately, and all reductions sum over the ranges below those sizes.
  Entries outside the ranges are never read by any result we state.
* torch.sqrt is an abstract function parameter (sqrt : QQ -> QQ) of the
  forward pass; every theorem below holds for an arbitrary choice of it,
  hence in particular for the real square root rounded to floats.
* Buffers registered as None in the code (register_parameter(_, None))
  are modelled as Option values; an operation that would dereference
  None in Python (AttributeError / TypeError) returns none.
* The statistics axis set is "bt" (track_running_stats = true, the
  configuration exercised throughout the module's doctests) or "t"
  (batch axis not included, so no running statistics), selected by the
  field statsIncludeBatch.  The channel axis is the independent axis.
  The generic layout/shape bookkeeping of __init__ is modelled
  separately (see reducedShape / normInitOk below).
-/

namespace padertorch

/-- A rank-3 tensor with layout "bct": indexed by batch, channel, time. -/
abbrev Tensor3 : Type := ℕ → ℕ → ℕ → ℚ

/-- State of a Norm module (norm.py, class Norm).  Configuration fields
plus the registered buffers and learnable parameters.  Buffers are
Option-valued: none models register_parameter(name, None).  Buffers have
reduced shape (1, C, 1), so they are functions of the channel index. -/
structure Norm where
  C : ℕ
  statsIncludeBatch : Bool
  scale : Bool
  eps : ℚ
  momentum : Option ℚ
  n_freeze : Option ℚ
  training : Bool
  num_tracked_values : Option (ℕ → ℚ)
  running_mean : Option (ℕ → ℚ)
  running_power : Option (ℕ → ℚ)
  learnable_scale : Option (ℕ → ℚ)
  learnable_shift : Option (ℕ → ℚ)

/-- Norm.__init__ for layout "bct", shape (None, C, None): buffers are
registered (zeros / zeros / ones) iff the batch axis is in the
statistics axis set; running_power additionally requires scale=True,
else it is registered as None.  The learnable Scale (ones) and Shift
(zeros) exist iff an independent axis is given.  Modules start in
training mode. -/
def Norm.init (C : ℕ) (statsIncludeBatch scale : Bool) (eps : ℚ)
    (momentum n_freeze : Option ℚ) (independent : Bool) : Norm where
  C := C
  statsIncludeBatch := statsIncludeBatch
  scale := scale
  eps := eps
  momentum := momentum
  n_freeze := n_freeze
  training := true
  num_tracked_values := if statsIncludeBatch then some (fun _ => 0) else none
  running_mean := if statsIncludeBatch then some (fun _ => 0) else none
  running_power :=
    if statsIncludeBatch then (if scale then some (fun _ => 1) else none) else none
  learnable_scale := if independent then some (fun _ => 1) else none
  learnable_shift := if independent then some (fun _ => 0) else none

/-- Norm.compute_mask: with a sequence-length vector, position t of
example b is valid iff t < seq_len b (broadcast over channels); without
one the mask is all ones.  (The mask depends on the input tensor only
through its shape.) -/
def computeMask (seq_len : Option (ℕ → ℕ)) : Tensor3 :=
  match seq_len with
  | some l => fun b _ t => if t < l b then 1 else 0
  | none => fun _ _ _ => 1

/-- Reduction sum(dim=statistics_axis, keepdim=True), broadcast back to
full shape: with the batch axis included the sum runs over batch and
time, otherwise over time only.  The result is constant along the
reduced axes, which models the keepdim size-1 axes. -/
def statSum (includeB : Bool) (B T : ℕ) (f : Tensor3) : Tensor3 :=
  fun b c _ =>
    if includeB then ∑ b' ∈ Finset.range B, ∑ t' ∈ Finset.range T, f b' c t'
    else ∑ t' ∈ Finset.range T, f b c t'

/-- Norm.compute_stats: masked counts, masked mean and (when scale is
enabled) masked second moment, with the denominator clamped to at least
one.  Returns (mean, power?, n_values). -/
def computeStats (s : Norm) (B T : ℕ) (x mask : Tensor3) :
    Tensor3 × Option Tensor3 × Tensor3 :=
  let n_values := statSum s.statsIncludeBatch B T mask
  let xm : Tensor3 := fun b c t => x b c t * mask b c t
  let mean : Tensor3 := fun b c t =>
    statSum s.statsIncludeBatch B T xm b c t / max (n_values b c t) 1
  if s.scale then
    let power : Tensor3 := fun b c t =>
      statSum s.statsIncludeBatch B T (fun b' c' t' => (xm b' c' t') ^ 2) b c t /
        max (n_values b c t) 1
    (mean, some power, n_values)
  else (mean, none, n_values)

/-- Unbiased-variance expression of Norm.forward: the count is clamped
to at least 2, then var = n/(n-1) * (power - mean^2). -/
def torchUnbiasedVar (n power mean : ℚ) : ℚ :=
  max n 2 / (max n 2 - 1) * (power - mean ^ 2)

/-- Norm.freezed: a freeze threshold is set, running stats are tracked,
and the maximum entry of the count buffer has reached the threshold. -/
def Norm.freezed (s : Norm) : Bool :=
  match s.n_freeze, s.num_tracked_values with
  | some f, some nt =>
      s.statsIncludeBatch && (List.range s.C).any (fun c => decide (f ≤ nt c))
  | _, _ => false

/-- Branch condition of Norm.forward: estimate-and-accumulate iff
(training and not freezed) or running stats are not tracked. -/
def Norm.estimateBranch (s : Norm) : Bool :=
  (s.training && !s.freezed) || !s.statsIncludeBatch

/-- Estimate-branch normalization of Norm.forward: subtract the batch
mean; if scale is enabled, divide by sqrt(unbiased variance) + eps.
Returns none if the power entry is missing (never happens, since
compute_stats returns it exactly when scale is enabled). -/
def Norm.normalizeEstimate (s : Norm) (sqrt : ℚ → ℚ) (B T : ℕ)
    (x mask : Tensor3) : Option Tensor3 :=
  let ms := computeStats s B T x mask
  let x1 : Tensor3 := fun b c t => x b c t - ms.1 b c t
  if s.scale then
    match ms.2.1 with
    | some power =>
        some (fun b c t =>
          x1 b c t /
            (sqrt (torchUnbiasedVar (ms.2.2 b c t) (power b c t) (ms.1 b c t)) + s.eps))
    | none => none
  else some x1

/-- Running-statistics update of Norm.forward (executed only when the
batch axis is a statistics axis): count += n, momentum is either the
configured constant or adaptively 1 - n / count, and the running mean
(and power, when scale is enabled) are blended in place.  The per-call
statistics have reduced shape (1, C, 1), so they are read at batch and
time index 0.  Dereferencing a missing buffer yields none. -/
def Norm.updateRunningStats (s : Norm) (B T : ℕ) (x mask : Tensor3) : Option Norm :=
  if s.statsIncludeBatch then
    let ms := computeStats s B T x mask
    match s.num_tracked_values, s.running_mean with
    | some nt, some rm =>
        let nt' : ℕ → ℚ := fun c => nt c + ms.2.2 0 c 0
        let mom : ℕ → ℚ :=
          match s.momentum with
          | some m => fun _ => m
          | none => fun c => 1 - ms.2.2 0 c 0 / nt' c
        let rm' : ℕ → ℚ := fun c => mom c * rm c + (1 - mom c) * ms.1 0 c 0
        if s.scale then
          match ms.2.1, s.running_power with
          | some power, some rp =>
              some { s with
                num_tracked_values := some nt'
                running_mean := some rm'
                running_power :=
                  some (fun c => mom c * rp c + (1 - mom c) * power 0 c 0) }
          | _, _ => none
        else
          some { s with num_tracked_values := some nt', running_mean := some rm' }
    | _, _ => none
  else some s

/-- Replay-branch normalization of Norm.forward: subtract the stored
running mean; if scale is enabled, divide by sqrt of the unbiased
variance recomputed from the stored running power and mean (count
clamped to at least 2). -/
def Norm.normalizeReplay (s : Norm) (sqrt : ℚ → ℚ) (x : Tensor3) : Option Tensor3 :=
  match s.running_mean with
  | none => none
  | some rm =>
      let x1 : Tensor3 := fun b c t => x b c t - rm c
      if s.scale then
        match s.num_tracked_values, s.running_power with
        | some nt, some rp =>
            some (fun b c t =>
              x1 b c t / (sqrt (torchUnbiasedVar (nt c) (rp c) (rm c)) + s.eps))
        | _, _ => none
      else some x1

/-- Tail of Norm.forward: apply the learnable scale (if present), then
the learnable shift (if present), then multiply by the validity mask. -/
def affineAndMask (s : Norm) (mask x : Tensor3) : Tensor3 :=
  let x1 : Tensor3 :=
    match s.learnable_scale with
    | some sc => fun b c t => x b c t * sc c
    | none => x
  let x2 : Tensor3 :=
    match s.learnable_shift with
    | some sh => fun b c t => x1 b c t - sh c
    | none => x1
  fun b c t => x2 b c t * mask b c t

/-- Norm.forward: compute the mask, normalize on the estimate branch
(updating the running statistics when tracked) or the replay branch,
apply the learnable affine parameters, and re-multiply the mask.
Returns the output tensor together with the updated module state; none
models a Python exception (None-buffer dereference).  The code calls
compute_stats once and feeds it to both the normalization and the
update; compute_stats is pure, so normalizeEstimate and
updateRunningStats recompute the identical values. -/
def Norm.forward (s : Norm) (sqrt : ℚ → ℚ) (B T : ℕ) (x : Tensor3)
    (seq_len : Option (ℕ → ℕ)) : Option (Tensor3 × Norm) :=
  let mask := computeMask seq_len
  if s.estimateBranch then
    match s.normalizeEstimate sqrt B T x mask, s.updateRunningStats B T x mask with
    | some x2, some s' => some (affineAndMask s mask x2, s')
    | _, _ => none
  else
    match s.normalizeReplay sqrt x with
    | some x2 => some (affineAndMask s mask x2, s)
    | none => none

/-- Norm.reset_running_stats: when running stats are tracked, zero the
running mean and the count; the code then guards the running-power
reset with (self.scale is not None), which is always true because
self.scale is a bool, and so it unconditionally calls fill_(1) on
running_power -- an AttributeError (none) when running_power was
registered as None (scale=False). -/
def Norm.resetRunningStats (s : Norm) : Option Norm :=
  if s.statsIncludeBatch then
    match s.running_mean, s.num_tracked_values with
    | some _, some _ =>
        match s.running_power with
        | some _ =>
            some { s with
              running_mean := some (fun _ => 0)
              num_tracked_values := some (fun _ => 0)
              running_power := some (fun _ => 1) }
        | none => none
    | _, _ => none
  else some s

/-- Norm.reset_parameters: reset the running statistics, then
re-initialize the learnable scale to ones and the learnable shift to
zeros (when present). -/
def Norm.resetParameters (s : Norm) : Option Norm :=
  (s.resetRunningStats).map (fun s' =>
    { s' with
      learnable_scale := s'.learnable_scale.map (fun _ => fun _ => 1)
      learnable_shift := s'.learnable_shift.map (fun _ => fun _ => 0) })

/-- State component of a forward call. -/
def stateAfter (s : Norm) (sqrt : ℚ → ℚ) (B T : ℕ) (x : Tensor3)
    (seq_len : Option (ℕ → ℕ)) : Option Norm :=
  (s.forward sqrt B T x seq_len).map Prod.snd

/-- Output component of a forward call. -/
def outputOf (s : Norm) (sqrt : ℚ → ℚ) (B T : ℕ) (x : Tensor3)
    (seq_len : Option (ℕ → ℕ)) : Option Tensor3 :=
  (s.forward sqrt B T x seq_len).map Prod.fst

/-- Read the running mean of an optional state at channel c. -/
def runningMeanAt (so : Option Norm) (c : ℕ) : Option ℚ :=
  so.bind (fun s => s.running_mean.map (fun f => f c))

/-- Read the running power of an optional state at channel c. -/
def runningPowerAt (so : Option Norm) (c : ℕ) : Option ℚ :=
  so.bind (fun s => s.running_power.map (fun f => f c))

/-- Read the value count of an optional state at channel c. -/
def numTrackedAt (so : Option Norm) (c : ℕ) : Option ℚ :=
  so.bind (fun s => s.num_tracked_values.map (fun f => f c))

end padertorch

namespace padertorch

/-- The validity mask vanishes at positions at or beyond the example's
length. -/
theorem computeMask_invalid (l : ℕ → ℕ) (b c t : ℕ) (ht : l b ≤ t) :
    computeMask (some l) b c t = 0 := by
  simp [computeMask, Nat.not_lt.mpr ht]

/-- The affine-then-mask tail returns zero wherever the mask is zero. -/
theorem affineAndMask_zero (s : Norm) (mask x : Tensor3) (b c t : ℕ)
    (hm : mask b c t = 0) : affineAndMask s mask x b c t = 0 := by
  simp only [affineAndMask]
  rw [hm, mul_zero]

end padertorch

namespace padertorch

/-- C7: for Norm.forward, for every input and every per-example length
vector, every output position with t >= length[b] along the sequence
axis is exactly zero: the validity mask is re-multiplied after the
learnable affine scale and shift steps, in both branches. -/
theorem forward_zero_beyond_length (s : Norm) (sqrt : ℚ → ℚ) (B T : ℕ)
    (x : Tensor3) (l : ℕ → ℕ) (y : Tensor3) (s' : Norm) (b c t : ℕ)
    (hfwd : s.forward sqrt B T x (some l) = some (y, s')) (ht : l b ≤ t) :
    y b c t = 0 := by
  simp only [Norm.forward] at hfwd
  split at hfwd
  · split at hfwd
    · obtain ⟨hy, -⟩ := Prod.mk.inj (Option.some.inj hfwd)
      rw [← hy]
      exact affineAndMask_zero _ _ _ _ _ _ (computeMask_invalid l b c t ht)
    · exact absurd hfwd (by simp)
  · split at hfwd
    · obtain ⟨hy, -⟩ := Prod.mk.inj (Option.some.inj hfwd)
      rw [← hy]
      exact affineAndMask_zero _ _ _ _ _ _ (computeMask_invalid l b c t ht)
    · exact absurd hfwd (by simp)

/-- Instance-norm style configuration used as a lightweight witness:
statistics over time only, so no running statistics are tracked. -/
def sW : Norm := Norm.init 1 false true (1/100000) none none false

/-- Constant witness input. -/
def xW : Tensor3 := fun _ _ _ => 2

/-- Witness for C7: on a concrete call whose example 0 has length 0,
output position (0,0,0) is zero. -/
theorem forward_zero_beyond_length_witness :
    (fun _ : ℕ => 0) 0 ≤ 0 ∧
      ((sW.forward id 1 1 xW (some (fun _ => 0))).map (fun r => r.1 0 0 0)) = some 0 := by
  refine ⟨le_refl 0, ?_⟩
  rcases hf : sW.forward id 1 1 xW (some (fun _ => 0)) with _ | ⟨y, s'⟩
  · exact absurd hf (by simp [Norm.forward, Norm.estimateBranch, Norm.freezed, sW, Norm.init,
      Norm.normalizeEstimate, Norm.updateRunningStats, computeStats])
  · simpa using forward_zero_beyond_length sW id 1 1 xW (fun _ => 0) y s' 0 0 0 hf (le_refl 0)

end padertorch

namespace padertorch

/-- Running-stats update leaves every non-buffer field unchanged and is
the identity when the batch axis is not a statistics axis. -/
theorem updateRunningStats_frame (s : Norm) (B T : ℕ) (x mask : Tensor3) (s' : Norm)
    (h : s.updateRunningStats B T x mask = some s') :
    s'.C = s.C ∧ s'.statsIncludeBatch = s.statsIncludeBatch ∧ s'.scale = s.scale ∧
      s'.eps = s.eps ∧ s'.momentum = s.momentum ∧ s'.n_freeze = s.n_freeze ∧
      s'.training = s.training ∧ s'.learnable_scale = s.learnable_scale ∧
      s'.learnable_shift = s.learnable_shift ∧
      (s.statsIncludeBatch = false → s' = s) := by
  simp only [Norm.updateRunningStats] at h
  split at h
  · next htr =>
    split at h
    · split at h
      · split at h
        · obtain rfl := (Option.some.inj h).symm
          exact ⟨rfl, rfl, rfl, rfl, rfl, rfl, rfl, rfl, rfl, fun hf => by simp [hf] at htr⟩
        · exact absurd h (by simp)
      · obtain rfl := (Option.some.inj h).symm
        exact ⟨rfl, rfl, rfl, rfl, rfl, rfl, rfl, rfl, rfl, fun hf => by simp [hf] at htr⟩
    · exact absurd h (by simp)
  · obtain rfl := (Option.some.inj h).symm
    exact ⟨rfl, rfl, rfl, rfl, rfl, rfl, rfl, rfl, rfl, fun _ => rfl⟩

/-- C10: Norm.forward mutates at most the three running-statistics
buffers; configuration fields and the learnable scale and shift are
unchanged, and with tracking disabled or on the replay branch the state
does not change at all. -/
theorem forward_frame (s : Norm) (sqrt : ℚ → ℚ) (B T : ℕ) (x : Tensor3)
    (sl : Option (ℕ → ℕ)) (y : Tensor3) (s' : Norm)
    (hfwd : s.forward sqrt B T x sl = some (y, s')) :
    s'.C = s.C ∧ s'.statsIncludeBatch = s.statsIncludeBatch ∧ s'.scale = s.scale ∧
      s'.eps = s.eps ∧ s'.momentum = s.momentum ∧ s'.n_freeze = s.n_freeze ∧
      s'.training = s.training ∧ s'.learnable_scale = s.learnable_scale ∧
      s'.learnable_shift = s.learnable_shift ∧
      (s.statsIncludeBatch = false → s' = s) ∧
      (s.estimateBranch = false → s' = s) := by
  simp only [Norm.forward] at hfwd
  split at hfwd
  · next hbr =>
    split at hfwd
    · next hupd =>
      obtain ⟨-, hs⟩ := Prod.mk.inj (Option.some.inj hfwd)
      obtain ⟨h1, h2, h3, h4, h5, h6, h7, h8, h9, h10⟩ :=
        updateRunningStats_frame s B T x (computeMask sl) s' (hs ▸ hupd)
      exact ⟨h1, h2, h3, h4, h5, h6, h7, h8, h9, h10,
        fun hf => by simp [hf] at hbr⟩
    · exact absurd hfwd (by simp)
  · split at hfwd
    · obtain ⟨-, hs⟩ := Prod.mk.inj (Option.some.inj hfwd)
      obtain rfl := hs.symm
      exact ⟨rfl, rfl, rfl, rfl, rfl, rfl, rfl, rfl, rfl, fun _ => rfl, fun _ => rfl⟩
    · exact absurd hfwd (by simp)

/-- Witness for C10: a concrete non-tracking forward call leaves the
module state bit-identical. -/
theorem forward_frame_witness :
    ((sW.forward id 1 1 xW none).map (fun r => r.2)) = some sW := by
  rcases hf : sW.forward id 1 1 xW none with _ | ⟨y, s'⟩
  · exact absurd hf (by simp [Norm.forward, Norm.estimateBranch, Norm.freezed, sW, Norm.init,
      Norm.normalizeEstimate, Norm.updateRunningStats, computeStats])
  · have h := (forward_frame sW id 1 1 xW none y s' hf).2.2.2.2.2.2.2.2.2.1 rfl
    simp [h]

end padertorch

namespace padertorch

/-- Arguments of one forward call (the abstract sqrt, batch and time
sizes, input tensor, optional lengths). -/
structure NormCall where
  sqrt : ℚ → ℚ
  B : ℕ
  T : ℕ
  x : Tensor3
  seq_len : Option (ℕ → ℕ)

/-- Iterate forward calls, threading the module state; none as soon as
one call raises. -/
def runCalls (s : Norm) : List NormCall → Option Norm
  | [] => some s
  | ci :: rest =>
      match stateAfter s ci.sqrt ci.B ci.T ci.x ci.seq_len with
      | some s' => runCalls s' rest
      | none => none

/-- A frozen, trackable state replays without touching any state. -/
theorem replay_state_unchanged (s : Norm) (hbr : s.estimateBranch = false)
    (hrm : s.running_mean.isSome)
    (hnt : s.num_tracked_values.isSome)
    (hrp : s.scale = true → s.running_power.isSome)
    (sqrt : ℚ → ℚ) (B T : ℕ) (x : Tensor3) (sl : Option (ℕ → ℕ)) :
    stateAfter s sqrt B T x sl = some s := by
  obtain ⟨rm0, hrm0⟩ := Option.isSome_iff_exists.mp hrm
  obtain ⟨nt0, hnt0⟩ := Option.isSome_iff_exists.mp hnt
  simp only [stateAfter, Norm.forward, hbr]
  rw [if_neg (by simp [hbr])]
  cases hsc : s.scale with
  | true =>
      obtain ⟨rp0, hrp0⟩ := Option.isSome_iff_exists.mp (hrp hsc)
      simp [Norm.normalizeReplay, hrm0, hnt0, hrp0, hsc]
  | false =>
      simp [Norm.normalizeReplay, hrm0, hsc]

/-- C5: with a freeze threshold configured and running-stats tracking
enabled, once the maximum of the count buffer reaches the threshold the
module is freezed, every forward call (training or not) takes the
replay branch, and any sequence of further forward calls leaves the
entire state (in particular running_mean, running_power and the count)
unchanged. -/
theorem freeze_replay_forever (s : Norm) (f : ℚ) (nt0 : ℕ → ℚ)
    (hfz : s.n_freeze = some f)
    (htr : s.statsIncludeBatch = true)
    (hnt : s.num_tracked_values = some nt0)
    (hmax : ∃ c < s.C, f ≤ nt0 c)
    (hrm : s.running_mean.isSome)
    (hrp : s.scale = true → s.running_power.isSome) :
    s.freezed = true ∧ s.estimateBranch = false ∧
      ∀ calls : List NormCall, runCalls s calls = some s := by
  obtain ⟨c, hc, hle⟩ := hmax
  have hfreezed : s.freezed = true := by
    simp only [Norm.freezed, hfz, hnt, htr, Bool.true_and]
    exact List.any_eq_true.mpr ⟨c, List.mem_range.mpr hc, decide_eq_true hle⟩
  have hbr : s.estimateBranch = false := by
    simp [Norm.estimateBranch, hfreezed, htr]
  refine ⟨hfreezed, hbr, ?_⟩
  intro calls
  induction calls with
  | nil => rfl
  | cons ci rest ih =>
      simp only [runCalls,
        replay_state_unchanged s hbr hrm (hnt ▸ rfl) hrp ci.sqrt ci.B ci.T ci.x ci.seq_len]
      exact ih

/-- Frozen witness state: count 6 against threshold 5. -/
def sFrozen : Norm :=
  { Norm.init 1 true true (1/100000) (some (1/2)) (some 5) true with
    num_tracked_values := some (fun _ => 6) }

/-- Witness for C5: the concrete frozen state satisfies the hypotheses,
is freezed, and two concrete forward calls leave it unchanged. -/
theorem freeze_replay_forever_witness :
    sFrozen.n_freeze = some 5 ∧ sFrozen.statsIncludeBatch = true ∧
      (∃ c < sFrozen.C, (5:ℚ) ≤ (fun _ : ℕ => (6:ℚ)) c) ∧
      sFrozen.freezed = true ∧
      runCalls sFrozen [⟨id, 1, 1, xW, none⟩, ⟨id, 2, 3, xW, none⟩] = some sFrozen := by
  have h := freeze_replay_forever sFrozen 5 (fun _ => 6) rfl rfl rfl
    ⟨0, Nat.zero_lt_one, by norm_num⟩ (by simp [sFrozen, Norm.init]) (fun _ => by simp [sFrozen, Norm.init])
  exact ⟨rfl, rfl, ⟨0, Nat.zero_lt_one, by norm_num⟩, h.1, h.2.2 _⟩

end padertorch

namespace padertorch

/-- compute_stats depends on the module state only through the
statistics-axis flag and the scale flag. -/
theorem computeStats_eq_of_flags (s s' : Norm)
    (h1 : s.statsIncludeBatch = s'.statsIncludeBatch) (h2 : s.scale = s'.scale)
    (B T : ℕ) (x mask : Tensor3) :
    computeStats s B T x mask = computeStats s' B T x mask := by
  simp only [computeStats, h1, h2]

/-- compute_stats returns a power tensor exactly when scale is
enabled, so the estimate-branch normalization never dereferences a
missing power. -/
theorem normalizeEstimate_isSome (s : Norm) (sqrt : ℚ → ℚ) (B T : ℕ)
    (x mask : Tensor3) : (s.normalizeEstimate sqrt B T x mask).isSome := by
  cases hsc : s.scale <;> simp [Norm.normalizeEstimate, computeStats, hsc]

/-- On the estimate branch, the state after forward is exactly the
result of the running-statistics update. -/
theorem stateAfter_estimate (s : Norm) (hbr : s.estimateBranch = true)
    (sqrt : ℚ → ℚ) (B T : ℕ) (x : Tensor3) (sl : Option (ℕ → ℕ)) :
    stateAfter s sqrt B T x sl = s.updateRunningStats B T x (computeMask sl) := by
  obtain ⟨x2, hx2⟩ := Option.isSome_iff_exists.mp
    (normalizeEstimate_isSome s sqrt B T x (computeMask sl))
  simp only [stateAfter, Norm.forward, hbr, if_true, hx2]
  cases hupd : s.updateRunningStats B T x (computeMask sl) <;> simp [hupd]

/-- With fixed momentum, tracking enabled and scale disabled, the
running-stats update blends the running mean with the per-call mean and
accumulates the count. -/
theorem updateRunningStats_noscale (s : Norm) (B T : ℕ) (x mask : Tensor3)
    (nt0 rm0 : ℕ → ℚ) (m : ℚ)
    (htr : s.statsIncludeBatch = true) (hsc : s.scale = false)
    (hnt : s.num_tracked_values = some nt0) (hrm : s.running_mean = some rm0)
    (hmom : s.momentum = some m) :
    s.updateRunningStats B T x mask = some
      { s with
        num_tracked_values :=
          some (fun c => nt0 c + (computeStats s B T x mask).2.2 0 c 0)
        running_mean :=
          some (fun c => m * rm0 c + (1 - m) * (computeStats s B T x mask).1 0 c 0) } := by
  simp only [Norm.updateRunningStats, htr, hnt, hrm, hmom, hsc, if_true]
  rfl

/-- With fixed momentum, tracking and scale enabled, the running-stats
update blends mean and power and accumulates the count. -/
theorem updateRunningStats_scale (s : Norm) (B T : ℕ) (x mask : Tensor3)
    (nt0 rm0 rp0 : ℕ → ℚ) (m : ℚ) (P : Tensor3)
    (htr : s.statsIncludeBatch = true) (hsc : s.scale = true)
    (hnt : s.num_tracked_values = some nt0) (hrm : s.running_mean = some rm0)
    (hrp : s.running_power = some rp0) (hmom : s.momentum = some m)
    (hP : (computeStats s B T x mask).2.1 = some P) :
    s.updateRunningStats B T x mask = some
      { s with
        num_tracked_values :=
          some (fun c => nt0 c + (computeStats s B T x mask).2.2 0 c 0)
        running_mean :=
          some (fun c => m * rm0 c + (1 - m) * (computeStats s B T x mask).1 0 c 0)
        running_power := some (fun c => m * rp0 c + (1 - m) * P 0 c 0) } := by
  simp only [Norm.updateRunningStats, htr, hnt, hrm, hmom, hsc, hrp, hP, if_true]

/-- When scale is enabled compute_stats returns some power tensor. -/
theorem computeStats_power_isSome (s : Norm) (B T : ℕ) (x mask : Tensor3)
    (hsc : s.scale = true) : ∃ P, (computeStats s B T x mask).2.1 = some P := by
  simp [computeStats, hsc]

/-- C6: with a fixed momentum m and tracking enabled, starting from a
freshly initialized running mean (all zeros), two sequential training
forward calls with per-call masked means mu1 and mu2 leave the running
mean at m*(m*0 + (1-m)*mu1) + (1-m)*mu2, at every channel. -/
theorem running_mean_after_two_calls (s : Norm) (m : ℚ) (nt0 : ℕ → ℚ)
    (hmom : s.momentum = some m) (htr : s.statsIncludeBatch = true)
    (htrain : s.training = true) (hfz : s.n_freeze = none)
    (hrm : s.running_mean = some (fun _ => 0))
    (hnt : s.num_tracked_values = some nt0)
    (hrp : s.scale = true → s.running_power.isSome)
    (sqrt1 sqrt2 : ℚ → ℚ) (B1 T1 B2 T2 : ℕ) (x1 x2 : Tensor3)
    (sl1 sl2 : Option (ℕ → ℕ)) (c : ℕ) :
    runningMeanAt ((stateAfter s sqrt1 B1 T1 x1 sl1).bind
        (fun s1 => stateAfter s1 sqrt2 B2 T2 x2 sl2)) c =
      some (m * (m * 0 + (1 - m) * (computeStats s B1 T1 x1 (computeMask sl1)).1 0 c 0)
        + (1 - m) * (computeStats s B2 T2 x2 (computeMask sl2)).1 0 c 0) := by
  have hfr : s.freezed = false := by simp [Norm.freezed, hfz]
  have hbr : s.estimateBranch = true := by simp [Norm.estimateBranch, htrain, hfr]
  rw [stateAfter_estimate s hbr]
  cases hsc : s.scale with
  | false =>
      rw [updateRunningStats_noscale s B1 T1 x1 (computeMask sl1) nt0 (fun _ => 0) m
        htr hsc hnt hrm hmom]
      · simp only [Option.some_bind]
        have hbr1 : Norm.estimateBranch
            { s with
              num_tracked_values :=
                some (fun c => nt0 c + (computeStats s B1 T1 x1 (computeMask sl1)).2.2 0 c 0)
              running_mean :=
                some (fun c => m * (fun _ : ℕ => (0:ℚ)) c +
                  (1 - m) * (computeStats s B1 T1 x1 (computeMask sl1)).1 0 c 0) } = true := by
          simp [Norm.estimateBranch, Norm.freezed, htrain, hfz]
        rw [stateAfter_estimate _ hbr1]
        rw [updateRunningStats_noscale
          { s with
            num_tracked_values :=
              some (fun c => nt0 c + (computeStats s B1 T1 x1 (computeMask sl1)).2.2 0 c 0)
            running_mean :=
              some (fun c => m * (fun _ : ℕ => (0:ℚ)) c +
                (1 - m) * (computeStats s B1 T1 x1 (computeMask sl1)).1 0 c 0) }
          B2 T2 x2 (computeMask sl2) _ _ m htr hsc rfl rfl hmom]
        simp [runningMeanAt]
        exact Or.inl rfl
  | true =>
      obtain ⟨rp0, hrp0⟩ := Option.isSome_iff_exists.mp (hrp hsc)
      obtain ⟨P1, hP1⟩ := computeStats_power_isSome s B1 T1 x1 (computeMask sl1) hsc
      rw [updateRunningStats_scale s B1 T1 x1 (computeMask sl1) nt0 (fun _ => 0) rp0 m P1
        htr hsc hnt hrm hrp0 hmom hP1]
      simp only [Option.some_bind]
      have hbr1 : Norm.estimateBranch
          { s with
            num_tracked_values :=
              some (fun c => nt0 c + (computeStats s B1 T1 x1 (computeMask sl1)).2.2 0 c 0)
            running_mean :=
              some (fun c => m * (fun _ : ℕ => (0:ℚ)) c +
                (1 - m) * (computeStats s B1 T1 x1 (computeMask sl1)).1 0 c 0)
            running_power := some (fun c => m * rp0 c + (1 - m) * P1 0 c 0) } = true := by
        simp [Norm.estimateBranch, Norm.freezed, htrain, hfz]
      rw [stateAfter_estimate _ hbr1]
      obtain ⟨P2, hP2⟩ := computeStats_power_isSome
        { s with
          num_tracked_values :=
            some (fun c => nt0 c + (computeStats s B1 T1 x1 (computeMask sl1)).2.2 0 c 0)
          running_mean :=
            some (fun c => m * (fun _ : ℕ => (0:ℚ)) c +
              (1 - m) * (computeStats s B1 T1 x1 (computeMask sl1)).1 0 c 0)
          running_power := some (fun c => m * rp0 c + (1 - m) * P1 0 c 0) }
        B2 T2 x2 (computeMask sl2) hsc
      rw [updateRunningStats_scale
        { s with
          num_tracked_values :=
            some (fun c => nt0 c + (computeStats s B1 T1 x1 (computeMask sl1)).2.2 0 c 0)
          running_mean :=
            some (fun c => m * (fun _ : ℕ => (0:ℚ)) c +
              (1 - m) * (computeStats s B1 T1 x1 (computeMask sl1)).1 0 c 0)
          running_power := some (fun c => m * rp0 c + (1 - m) * P1 0 c 0) }
        B2 T2 x2 (computeMask sl2) _ _ _ m P2 htr hsc rfl rfl rfl hmom hP2]
      simp [runningMeanAt]
      exact Or.inl rfl

end padertorch

namespace padertorch

/-- Tracking witness configuration with momentum one half. -/
def sTrack : Norm := Norm.init 1 true true (1/100000) (some (1/2)) none true

/-- Witness for C6: the two-call running-mean law applied to a concrete
fresh tracking normalizer. -/
theorem running_mean_after_two_calls_witness :
    sTrack.momentum = some (1/2) ∧ sTrack.statsIncludeBatch = true ∧
      sTrack.training = true ∧ sTrack.running_mean = some (fun _ => 0) ∧
      runningMeanAt ((stateAfter sTrack id 1 1 xW none).bind
          (fun s1 => stateAfter s1 id 1 1 xW none)) 0 =
        some ((1/2) * ((1/2) * 0 +
            (1 - 1/2) * (computeStats sTrack 1 1 xW (computeMask none)).1 0 0 0)
          + (1 - 1/2) * (computeStats sTrack 1 1 xW (computeMask none)).1 0 0 0) := by
  refine ⟨rfl, rfl, rfl, rfl, ?_⟩
  exact running_mean_after_two_calls sTrack (1/2) (fun _ => 0) rfl rfl rfl rfl rfl rfl
    (fun _ => by simp [sTrack, Norm.init]) id id 1 1 1 1 xW xW none none 0

/-- Cauchy-Schwarz specialized to a zero-one mask: the square of the
masked sum is at most the mask count times the masked sum of squares. -/
theorem sq_masked_sum_le {ι : Type} (s : Finset ι) (m x : ι → ℚ)
    (hm : ∀ i ∈ s, m i = 0 ∨ m i = 1) :
    (∑ i ∈ s, x i * m i) ^ 2 ≤ (∑ i ∈ s, m i) * ∑ i ∈ s, (x i * m i) ^ 2 := by
  have h := Finset.sum_mul_sq_le_sq_mul_sq s m (fun i => x i * m i)
  have h1 : ∑ i ∈ s, m i * (x i * m i) = ∑ i ∈ s, x i * m i :=
    Finset.sum_congr rfl (fun i hi => by rcases hm i hi with h0 | h0 <;> rw [h0] <;> ring)
  have h2 : ∑ i ∈ s, m i ^ 2 = ∑ i ∈ s, m i :=
    Finset.sum_congr rfl (fun i hi => by rcases hm i hi with h0 | h0 <;> rw [h0] <;> ring)
  rw [h1, h2] at h
  exact h

/-- With a zero-one mask, the masked second moment dominates the square
of the masked mean even with the count clamped to at least one. -/
theorem power_sub_sq_mean_nonneg {ι : Type} (s : Finset ι) (m x : ι → ℚ)
    (hm : ∀ i ∈ s, m i = 0 ∨ m i = 1) :
    0 ≤ (∑ i ∈ s, (x i * m i) ^ 2) / max (∑ i ∈ s, m i) 1 -
      ((∑ i ∈ s, x i * m i) / max (∑ i ∈ s, m i) 1) ^ 2 := by
  set n := ∑ i ∈ s, m i with hn
  set A := ∑ i ∈ s, (x i * m i) ^ 2 with hA
  set S := ∑ i ∈ s, x i * m i with hS
  have hN1 : (1:ℚ) ≤ max n 1 := le_max_right n 1
  have hN0 : (0:ℚ) < max n 1 := lt_of_lt_of_le one_pos hN1
  have hA0 : 0 ≤ A := Finset.sum_nonneg (fun i _ => sq_nonneg _)
  have hnN : n ≤ max n 1 := le_max_left n 1
  have hCS : S ^ 2 ≤ n * A := sq_masked_sum_le s m x hm
  have hSN : S ^ 2 ≤ max n 1 * A := le_trans hCS (mul_le_mul_of_nonneg_right hnN hA0)
  rw [sub_nonneg, div_pow, div_le_div_iff (by positivity) hN0]
  calc S ^ 2 * max n 1 ≤ (max n 1 * A) * max n 1 :=
        mul_le_mul_of_nonneg_right hSN (le_of_lt hN0)
    _ = A * (max n 1) ^ 2 := by ring

/-- C8: with a zero-one mask (in particular when a reduction window has
no valid position), the mean and power denominators of compute_stats
are clamped to at least one, the variance count of Norm.forward is
clamped to at least two, and the unbiased variance under the square
root is nonnegative: no division by zero and no negative radicand. -/
theorem compute_stats_degenerate_safe (s : Norm) (B T : ℕ) (x mask : Tensor3)
    (hm : ∀ b c t, mask b c t = 0 ∨ mask b c t = 1) (b c t : ℕ) :
    1 ≤ max ((computeStats s B T x mask).2.2 b c t) 1 ∧
      2 ≤ max ((computeStats s B T x mask).2.2 b c t) 2 ∧
      0 < max ((computeStats s B T x mask).2.2 b c t) 2 - 1 ∧
      ∀ p, (computeStats s B T x mask).2.1 = some p →
        0 ≤ torchUnbiasedVar ((computeStats s B T x mask).2.2 b c t) (p b c t)
          ((computeStats s B T x mask).1 b c t) := by
  refine ⟨le_max_right _ 1, le_max_right _ 2, ?_, ?_⟩
  · have h2 : (2:ℚ) ≤ max ((computeStats s B T x mask).2.2 b c t) 2 := le_max_right _ 2
    linarith
  · intro p hp
    have hvar : 0 ≤ p b c t - ((computeStats s B T x mask).1 b c t) ^ 2 := by
      cases hsc : s.scale with
      | false => simp [computeStats, hsc] at hp
      | true =>
          have hp' : p = fun b c t =>
              statSum s.statsIncludeBatch B T
                  (fun b' c' t' => (x b' c' t' * mask b' c' t') ^ 2) b c t /
                max (statSum s.statsIncludeBatch B T mask b c t) 1 := by
            simp only [computeStats, hsc, if_true] at hp
            exact (Option.some.inj hp).symm
          have hmean : (computeStats s B T x mask).1 = fun b c t =>
              statSum s.statsIncludeBatch B T
                  (fun b' c' t' => x b' c' t' * mask b' c' t') b c t /
                max (statSum s.statsIncludeBatch B T mask b c t) 1 := by
            simp only [computeStats, hsc, if_true]
          rw [hp', hmean]
          cases hib : s.statsIncludeBatch with
          | true =>
              simp only [statSum, if_true]
              rw [← Finset.sum_product', ← Finset.sum_product', ← Finset.sum_product']
              exact power_sub_sq_mean_nonneg (Finset.range B ×ˢ Finset.range T)
                (fun p => mask p.1 c p.2) (fun p => x p.1 c p.2)
                (fun p _ => hm p.1 c p.2)
          | false =>
              simp only [statSum, if_false]
              exact power_sub_sq_mean_nonneg (Finset.range T)
                (fun t' => mask b c t') (fun t' => x b c t')
                (fun t' _ => hm b c t')
    have hfac : 0 ≤ max ((computeStats s B T x mask).2.2 b c t) 2 /
        (max ((computeStats s B T x mask).2.2 b c t) 2 - 1) := by
      have h2 : (2:ℚ) ≤ max ((computeStats s B T x mask).2.2 b c t) 2 := le_max_right _ 2
      apply div_nonneg <;> linarith
    exact mul_nonneg hfac hvar

end padertorch

namespace padertorch

/-- All-invalid mask: every reduction window is empty. -/
def maskZero : Tensor3 := fun _ _ _ => 0

/-- Witness for C8: an all-zero mask (every reduction window empty)
satisfies the zero-one hypothesis and yields positive clamped
denominators. -/
theorem compute_stats_degenerate_safe_witness :
    (∀ b c t, maskZero b c t = 0 ∨ maskZero b c t = 1) ∧
      1 ≤ max ((computeStats sTrack 3 4 xW maskZero).2.2 0 0 0) 1 ∧
      0 < max ((computeStats sTrack 3 4 xW maskZero).2.2 0 0 0) 2 - 1 := by
  have h := compute_stats_degenerate_safe sTrack 3 4 xW maskZero
    (fun _ _ _ => Or.inl rfl) 0 0 0
  exact ⟨fun _ _ _ => Or.inl rfl, h.1, h.2.2.1⟩

/-- Tracking configuration with scale disabled: running_power is
registered as None. -/
def sNoScaleTrack : Norm := Norm.init 1 true false (1/100000) (some (1/2)) none true

/-- Tracking, scale-enabled state with dirtied buffers and parameters,
used to exercise the reset path that the claim describes. -/
def sDirty : Norm :=
  { Norm.init 2 true true (1/100000) (some (1/2)) none true with
    num_tracked_values := some (fun _ => 3)
    running_mean := some (fun _ => 7)
    running_power := some (fun _ => 9)
    learnable_scale := some (fun _ => 5)
    learnable_shift := some (fun _ => 4) }

/-- C4 (bug demonstration): with tracking enabled and scale disabled,
reset_running_stats dereferences the None running_power (the guard
"self.scale is not None" is always true for a bool) and raises, instead
of returning normally as the claim states; on a scale-enabled state,
reset_parameters does reset count and running mean to zero, running
power to one, the learnable scale to ones and the learnable shift to
zeros. -/
theorem reset_running_stats_none_deref :
    sNoScaleTrack.resetRunningStats = none ∧
      ((sDirty.resetParameters).bind (fun r => r.running_mean.map (fun f => f 0))) = some 0 ∧
      ((sDirty.resetParameters).bind (fun r => r.num_tracked_values.map (fun f => f 0))) = some 0 ∧
      ((sDirty.resetParameters).bind (fun r => r.running_power.map (fun f => f 0))) = some 1 ∧
      ((sDirty.resetParameters).bind (fun r => r.learnable_scale.map (fun f => f 0))) = some 1 ∧
      ((sDirty.resetParameters).bind (fun r => r.learnable_shift.map (fun f => f 0))) = some 0 :=
  ⟨rfl, rfl, rfl, rfl, rfl, rfl⟩

/-- The doctest configuration: layout bct, shape (None, 10, None),
statistics axis bt, momentum one half. -/
def s3 : Norm := Norm.init 10 true true (1/100000) (some (1/2)) none true

/-- Constant input of twos. -/
def x3 : Tensor3 := fun _ _ _ => 2

/-- Lengths 1, 2, 3 for the three examples. -/
def l3 : ℕ → ℕ := fun b => b + 1

/-- C3: for the doctest scenario (batch 3, channel 10, time 4, constant
input 2.0, lengths [1,2,3], momentum 0.5) the mask rows are [1,0,0,0],
[1,1,0,0], [1,1,1,0] at every channel, compute_stats yields mean 2 and
power 4 at every channel, and after one training forward call the
running mean is 1 and the running power is 5/2 at every channel. -/
theorem doctest_scenario :
    (∀ c < 10,
      ((List.range 3).map (fun b => (List.range 4).map (fun t => computeMask (some l3) b c t)))
        = [[1,0,0,0],[1,1,0,0],[1,1,1,0]]) ∧
    (∀ c < 10, (computeStats s3 3 4 x3 (computeMask (some l3))).1 0 c 0 = 2) ∧
    (∀ c < 10, ((computeStats s3 3 4 x3 (computeMask (some l3))).2.1.map (fun p => p 0 c 0))
      = some 4) ∧
    (∀ c < 10, runningMeanAt (stateAfter s3 id 3 4 x3 (some l3)) c = some 1) ∧
    (∀ c < 10, runningPowerAt (stateAfter s3 id 3 4 x3 (some l3)) c = some (5/2)) := by
  have h2 : (Finset.filter (fun x => x < 2) (Finset.range 4)).card = 2 := by decide
  have h3 : (Finset.filter (fun x => x < 3) (Finset.range 4)).card = 3 := by decide
  refine ⟨?_, ?_, ?_, ?_, ?_⟩
  · intro c hc
    simp [computeMask, l3, List.range_succ]
  · intro c hc
    simp [computeStats, statSum, s3, Norm.init, computeMask, x3, Finset.sum_range_succ, l3]
    rw [h2, h3]
    norm_num
  · intro c hc
    simp [computeStats, statSum, s3, Norm.init, computeMask, x3, Finset.sum_range_succ, l3]
    rw [h2, h3]
    norm_num
  · intro c hc
    simp [runningMeanAt, stateAfter, Norm.forward, Norm.estimateBranch, Norm.freezed,
      Norm.normalizeEstimate, Norm.updateRunningStats, computeStats, statSum, s3, Norm.init,
      computeMask, x3, l3, Finset.sum_range_succ]
    rw [h2, h3]
    norm_num
  · intro c hc
    simp [runningPowerAt, stateAfter, Norm.forward, Norm.estimateBranch, Norm.freezed,
      Norm.normalizeEstimate, Norm.updateRunningStats, computeStats, statSum, s3, Norm.init,
      computeMask, x3, l3, Finset.sum_range_succ]
    rw [h2, h3]
    norm_num

end padertorch

namespace padertorch

/-- Positions of the statistics-axis characters in the layout string
(Norm.__init__: data_format.index(ax) for ax in statistics_axis). -/
def statsPositions (data_format statistics_axis : List Char) : List ℕ :=
  statistics_axis.map (fun ax => data_format.indexOf ax)

/-- Shape with every statistics-axis position replaced by 1, as built
by Norm.__init__ before allocating the buffers. -/
def reducedShape (data_format : List Char) (shape : List (Option ℕ))
    (statistics_axis : List Char) : List (Option ℕ) :=
  (List.range shape.length).map
    (fun i =>
      if i ∈ statsPositions data_format statistics_axis then some 1
      else shape.getD i none)

/-- Assertions of the Scale and Shift constructors: every independent
axis must have a concrete size. -/
def independentOk (data_format : List Char) (shape : List (Option ℕ))
    (independent_axis : Option (List Char)) : Bool :=
  match independent_axis with
  | none => true
  | some axs => axs.all (fun ax => (shape.getD (data_format.indexOf ax) none).isSome)

/-- Construction-time checks of Norm.__init__: when the batch axis is a
statistics axis, assert that no entry of the reduced shape is None
(assert not any(d is None for d in reduced_shape)); and in all cases
the Scale/Shift assertions on the independent axes. -/
def normInitOk (data_format : List Char) (shape : List (Option ℕ))
    (statistics_axis : List Char) (batch_axis : Char)
    (independent_axis : Option (List Char)) : Bool :=
  (if batch_axis ∈ statistics_axis
    then !((reducedShape data_format shape statistics_axis).any (fun d => d.isNone))
    else true)
  && independentOk data_format shape independent_axis

/-- C9: with running-stats tracking enabled (batch axis among the
statistics axes), construction succeeds iff, besides the independent
axes being concrete, every axis outside the statistics-reduction set
has a concrete size -- because the buffers are allocated with the full
reduced shape. -/
theorem init_requires_concrete_nonstats_axes (df : List Char)
    (shape : List (Option ℕ)) (stats : List Char) (batch : Char)
    (indep : Option (List Char)) (htrack : batch ∈ stats) :
    normInitOk df shape stats batch indep = true ↔
      (independentOk df shape indep = true ∧
        ∀ i < shape.length, i ∉ statsPositions df stats → shape.getD i none ≠ none) := by
  unfold normInitOk
  rw [if_pos htrack, Bool.and_eq_true]
  constructor
  · rintro ⟨hany, hind⟩
    refine ⟨hind, ?_⟩
    intro i hi hnot hnone
    rw [Bool.not_eq_true'] at hany
    have hmem : ((reducedShape df shape stats).any (fun d => d.isNone)) = true := by
      apply List.any_eq_true.mpr
      refine ⟨shape.getD i none, ?_, by rw [hnone]; rfl⟩
      exact List.mem_map.mpr ⟨i, List.mem_range.mpr hi, by rw [if_neg hnot]⟩
    rw [hmem] at hany
    cases hany
  · rintro ⟨hind, hall⟩
    refine ⟨?_, hind⟩
    rw [Bool.not_eq_true']
    by_contra hany
    obtain ⟨d, hdmem, hdn⟩ := List.any_eq_true.mp (Bool.ne_false_iff.mp hany)
    obtain ⟨i, hir, hfi⟩ := List.mem_map.mp hdmem
    rw [← hfi] at hdn
    by_cases hpos : i ∈ statsPositions df stats
    · rw [if_pos hpos] at hdn
      cases hdn
    · rw [if_neg hpos] at hdn
      exact hall i (List.mem_range.mp hir) hpos (Option.isNone_iff_eq_none.mp hdn)

/-- Witness for C9: the default layout bcft with shape
(None, 10, 257, None) and statistics axes bft tracks the batch axis,
and the equivalence evaluates on it. -/
theorem init_requires_concrete_nonstats_axes_witness :
    ('b' ∈ ['b', 'f', 't']) ∧
      (normInitOk ['b', 'c', 'f', 't'] [none, some 10, some 257, none]
          ['b', 'f', 't'] 'b' (some ['c']) = true ↔
        (independentOk ['b', 'c', 'f', 't'] [none, some 10, some 257, none]
            (some ['c']) = true ∧
          ∀ i < 4, i ∉ statsPositions ['b', 'c', 'f', 't'] ['b', 'f', 't'] →
            [none, some 10, some 257, none].getD i none ≠ none)) := by
  refine ⟨by decide, ?_⟩
  exact init_requires_concrete_nonstats_axes ['b', 'c', 'f', 't']
    [none, some 10, some 257, none] ['b', 'f', 't'] 'b' (some ['c']) (by decide)

end padertorch

namespace padertorch

/-- Total order on batch indices used to model np.argsort(conditions):
sort by condition value, breaking ties by original index.  (numpy's
default sort leaves tie order unspecified; the tie-break makes the
model deterministic and matches any sort on tie-free inputs.) -/
def argsortRel (cond : ℕ → ℕ) (i j : ℕ) : Prop :=
  cond i < cond j ∨ (cond i = cond j ∧ i ≤ j)

instance (cond : ℕ → ℕ) : DecidableRel (argsortRel cond) := fun i j => by
  unfold argsortRel
  infer_instance

instance (cond : ℕ → ℕ) : IsTotal ℕ (argsortRel cond) := ⟨by
  intro i j
  rcases Nat.lt_trichotomy (cond i) (cond j) with h | h | h
  · exact Or.inl (Or.inl h)
  · rcases Nat.le_total i j with hij | hij
    · exact Or.inl (Or.inr ⟨h, hij⟩)
    · exact Or.inr (Or.inr ⟨h.symm, hij⟩)
  · exact Or.inr (Or.inl h)⟩

instance (cond : ℕ → ℕ) : IsTrans ℕ (argsortRel cond) := ⟨by
  intro a b c hab hbc
  rcases hab with h1 | ⟨h1, h1'⟩ <;> rcases hbc with h2 | ⟨h2, h2'⟩
  · exact Or.inl (lt_trans h1 h2)
  · exact Or.inl (h2 ▸ h1)
  · exact Or.inl (h1 ▸ h2)
  · exact Or.inr ⟨h1.trans h2, le_trans h1' h2'⟩⟩

/-- sort_idx of ConditionedNorm.forward: the batch indices 0..B-1
sorted by condition id. -/
def sortIdxList (B : ℕ) (cond : ℕ → ℕ) : List ℕ :=
  List.insertionSort (argsortRel cond) (List.range B)

/-- torch.cat along the batch axis of a list of (batch-size, tensor)
groups. -/
def catB : List (ℕ × Tensor3) → Tensor3
  | [] => fun _ _ _ => 0
  | (n, t) :: rest => fun b c ti => if b < n then t b c ti else catB rest (b - n) c ti

/-- State of a ConditionedNorm module: one Norm per condition id (each
constructed with independent_axis=None, so without its own learnable
affine), plus one shared learnable scale/shift pair. -/
structure ConditionedNorm where
  n_conditions : ℕ
  norms : ℕ → Norm
  learnable_scale : Option (ℕ → ℚ)
  learnable_shift : Option (ℕ → ℚ)

/-- Per-condition loop of ConditionedNorm.forward: for each condition
value c (in conditions_set order) gather the rows of the sorted batch
whose condition is c, run that condition's normalizer on them, and
collect the group outputs (with their sizes) and the updated
normalizer states.  groupIdx is the idx_array of one condition: the
positions (in the sorted batch) whose condition id equals c. -/
def groupIdx (B : ℕ) (conds : ℕ → ℕ) (c : ℕ) : List ℕ :=
  (List.range B).filter (fun k => conds k = c)

/-- Per-condition loop body of ConditionedNorm.forward over the list of
distinct condition values present. -/
def processGroups (sqrt : ℚ → ℚ) (T : ℕ) (xs : Tensor3) (sls : Option (ℕ → ℕ))
    (conds : ℕ → ℕ) (B : ℕ) :
    (ℕ → Norm) → List ℕ → Option (List (ℕ × Tensor3) × (ℕ → Norm))
  | norms, [] => some ([], norms)
  | norms, c :: rest =>
      let a := groupIdx B conds c
      let xg : Tensor3 := fun i ci t => xs (a.getD i 0) ci t
      let slg : Option (ℕ → ℕ) := sls.map (fun l i => l (a.getD i 0))
      match Norm.forward (norms c) sqrt a.length T xg slg with
      | none => none
      | some (yg, n') =>
          match processGroups sqrt T xs sls conds B
              (fun c' => if c' = c then n' else norms c') rest with
          | none => none
          | some (tail, norms') => some ((a.length, yg) :: tail, norms')

/-- ConditionedNorm.forward: stably sort the batch by condition id,
partition into per-condition groups, normalize each group with its own
Norm, concatenate, restore the original order through the inverse
permutation (reverse_idx i is the position of i in the sorted index
list), then apply the shared learnable scale and shift; when a shift is
applied, multiply by a mask recomputed from the local seq_len variable,
which at that point holds the lengths permuted into sorted order. -/
def ConditionedNorm.forward (cn : ConditionedNorm) (sqrt : ℚ → ℚ) (B T : ℕ)
    (x : Tensor3) (conditions : ℕ → ℕ) (seq_len : Option (ℕ → ℕ)) :
    Option (Tensor3 × ConditionedNorm) :=
  let sorted := sortIdxList B conditions
  let xs : Tensor3 := fun k c t => x (sorted.getD k 0) c t
  let sls : Option (ℕ → ℕ) := seq_len.map (fun l k => l (sorted.getD k 0))
  let conds : ℕ → ℕ := fun k => conditions (sorted.getD k 0)
  let condSet : List ℕ :=
    List.insertionSort (fun a b => a ≤ b) (((List.range B).map conds).dedup)
  match processGroups sqrt T xs sls conds B cn.norms condSet with
  | none => none
  | some (groups, norms') =>
      let ycat := catB groups
      let y : Tensor3 := fun i c t => ycat (sorted.indexOf i) c t
      let y1 : Tensor3 :=
        match cn.learnable_scale with
        | some sc => fun b c t => y b c t * sc c
        | none => y
      match cn.learnable_shift with
      | some sh =>
          let y2 : Tensor3 := fun b c t => y1 b c t - sh c
          let mask := computeMask sls
          some ((fun b c t => y2 b c t * mask b c t), { cn with norms := norms' })
      | none => some (y1, { cn with norms := norms' })

end padertorch

namespace padertorch

/-- Well-formed module state, as Norm.__init__ produces it: when the
batch axis is a statistics axis, the count and running-mean buffers are
registered, and so is running_power when scale is enabled. -/
def NormWf (s : Norm) : Prop :=
  s.statsIncludeBatch = true →
    (s.num_tracked_values.isSome ∧ s.running_mean.isSome ∧
      (s.scale = true → s.running_power.isSome))

/-- On a well-formed state, Norm.forward never raises. -/
theorem forward_isSome_of_wf (s : Norm) (hwf : NormWf s) (sqrt : ℚ → ℚ)
    (B T : ℕ) (x : Tensor3) (sl : Option (ℕ → ℕ)) :
    ∃ y s', s.forward sqrt B T x sl = some (y, s') := by
  simp only [Norm.forward]
  cases hbr : s.estimateBranch with
  | true =>
      rw [if_pos rfl]
      obtain ⟨x2, hx2⟩ := Option.isSome_iff_exists.mp
        (normalizeEstimate_isSome s sqrt B T x (computeMask sl))
      rw [hx2]
      cases htr : s.statsIncludeBatch with
      | false =>
          have hupd : s.updateRunningStats B T x (computeMask sl) = some s := by
            simp [Norm.updateRunningStats, htr]
          rw [hupd]
          exact ⟨_, _, rfl⟩
      | true =>
          obtain ⟨hnt, hrm, hrp⟩ := hwf htr
          obtain ⟨nt0, hnt0⟩ := Option.isSome_iff_exists.mp hnt
          obtain ⟨rm0, hrm0⟩ := Option.isSome_iff_exists.mp hrm
          cases hsc : s.scale with
          | false =>
              have hupd : ∃ s', s.updateRunningStats B T x (computeMask sl) = some s' := by
                simp only [Norm.updateRunningStats, htr, hnt0, hrm0, hsc, if_true]
                exact ⟨_, rfl⟩
              obtain ⟨s', hs'⟩ := hupd
              rw [hs']
              exact ⟨_, _, rfl⟩
          | true =>
              obtain ⟨rp0, hrp0⟩ := Option.isSome_iff_exists.mp (hrp hsc)
              obtain ⟨P, hP⟩ := computeStats_power_isSome s B T x (computeMask sl) hsc
              have hupd : ∃ s', s.updateRunningStats B T x (computeMask sl) = some s' := by
                simp only [Norm.updateRunningStats, htr, hnt0, hrm0, hsc, hrp0, hP, if_true]
                exact ⟨_, rfl⟩
              obtain ⟨s', hs'⟩ := hupd
              rw [hs']
              exact ⟨_, _, rfl⟩
  | false =>
      rw [if_neg (by simp [hbr])]
      have htr : s.statsIncludeBatch = true := by
        by_contra htr'
        have htrf : s.statsIncludeBatch = false := by
          revert htr'
          cases s.statsIncludeBatch <;> simp
        have : s.estimateBranch = true := by
          simp [Norm.estimateBranch, htrf]
        rw [this] at hbr
        cases hbr
      obtain ⟨hnt, hrm, hrp⟩ := hwf htr
      obtain ⟨nt0, hnt0⟩ := Option.isSome_iff_exists.mp hnt
      obtain ⟨rm0, hrm0⟩ := Option.isSome_iff_exists.mp hrm
      cases hsc : s.scale with
      | false =>
          have : s.normalizeReplay sqrt x = some (fun b c t => x b c t - rm0 c) := by
            simp [Norm.normalizeReplay, hrm0, hsc]
          rw [this]
          exact ⟨_, _, rfl⟩
      | true =>
          obtain ⟨rp0, hrp0⟩ := Option.isSome_iff_exists.mp (hrp hsc)
          have : ∃ x2, s.normalizeReplay sqrt x = some x2 := by
            simp only [Norm.normalizeReplay, hrm0, hnt0, hrp0, hsc, if_true]
            exact ⟨_, rfl⟩
          obtain ⟨x2, hx2⟩ := this
          rw [hx2]
          exact ⟨_, _, rfl⟩

end padertorch

namespace padertorch

/-- The running-stats update preserves well-formedness. -/
theorem updateRunningStats_wf (s : Norm) (B T : ℕ) (x mask : Tensor3) (s' : Norm)
    (h : s.updateRunningStats B T x mask = some s') (hwf : NormWf s) : NormWf s' := by
  simp only [Norm.updateRunningStats] at h
  split at h
  · split at h
    · next nt rm heqnt heqrm =>
      split at h
      · split at h
        · obtain rfl := (Option.some.inj h).symm
          intro htr'
          exact ⟨rfl, rfl, fun _ => rfl⟩
        · exact absurd h (by simp)
      · next hsc =>
        obtain rfl := (Option.some.inj h).symm
        intro htr'
        refine ⟨rfl, rfl, fun hsc' => ?_⟩
        exact absurd hsc' (by simpa using hsc)
    · exact absurd h (by simp)
  · obtain rfl := (Option.some.inj h).symm
    exact hwf

/-- Norm.forward preserves well-formedness. -/
theorem forward_preserves_wf (s : Norm) (sqrt : ℚ → ℚ) (B T : ℕ) (x : Tensor3)
    (sl : Option (ℕ → ℕ)) (y : Tensor3) (s' : Norm)
    (h : s.forward sqrt B T x sl = some (y, s')) (hwf : NormWf s) : NormWf s' := by
  simp only [Norm.forward] at h
  split at h
  · split at h
    · next heq1 heq2 =>
      obtain ⟨-, hs⟩ := Prod.mk.inj (Option.some.inj h)
      exact updateRunningStats_wf s B T x (computeMask sl) s' (hs ▸ heq2) hwf
    · exact absurd h (by simp)
  · split at h
    · obtain ⟨-, hs⟩ := Prod.mk.inj (Option.some.inj h)
      exact hs ▸ hwf
    · exact absurd h (by simp)

end padertorch

namespace padertorch

/-- Batch-and-time reduction only reads rows below B. -/
theorem statSum_congr_true (B T : ℕ) (f f' : Tensor3)
    (hf : ∀ b < B, ∀ c t, f b c t = f' b c t) :
    statSum true B T f = statSum true B T f' := by
  funext b c t
  simp only [statSum, if_true]
  exact Finset.sum_congr rfl (fun b' hb' => Finset.sum_congr rfl
    (fun t' _ => hf b' (Finset.mem_range.mp hb') c t'))

/-- Reduction agrees row-wise below B for either axis set. -/
theorem statSum_congr_row (ib : Bool) (B T : ℕ) (f f' : Tensor3)
    (hf : ∀ b < B, ∀ c t, f b c t = f' b c t) (b : ℕ) (hb : b < B) (c t : ℕ) :
    statSum ib B T f b c t = statSum ib B T f' b c t := by
  cases ib with
  | true => rw [statSum_congr_true B T f f' hf]
  | false =>
      simp only [statSum, Bool.false_eq_true, if_false]
      exact Finset.sum_congr rfl (fun t' _ => hf b hb c t')

/-- With batch statistics, compute_stats only reads rows below B. -/
theorem computeStats_congr_true (s : Norm) (htr : s.statsIncludeBatch = true)
    (B T : ℕ) (x x' mask mask' : Tensor3)
    (hx : ∀ b < B, ∀ c t, x b c t = x' b c t)
    (hm : ∀ b < B, ∀ c t, mask b c t = mask' b c t) :
    computeStats s B T x mask = computeStats s B T x' mask' := by
  have hxm : ∀ b, b < B → ∀ c t, x b c t * mask b c t = x' b c t * mask' b c t :=
    fun b hb c t => by rw [hx b hb c t, hm b hb c t]
  have hsq : ∀ b, b < B → ∀ c t,
      (x b c t * mask b c t) ^ 2 = (x' b c t * mask' b c t) ^ 2 :=
    fun b hb c t => by rw [hxm b hb c t]
  simp only [computeStats, htr]
  rw [statSum_congr_true B T mask mask' hm, statSum_congr_true B T _ _ hxm,
    statSum_congr_true B T _ _ hsq]

/-- compute_stats agrees row-wise below B for any axis set. -/
theorem computeStats_congr_row (s : Norm) (B T : ℕ) (x x' mask mask' : Tensor3)
    (hx : ∀ b < B, ∀ c t, x b c t = x' b c t)
    (hm : ∀ b < B, ∀ c t, mask b c t = mask' b c t) (b : ℕ) (hb : b < B) (c t : ℕ) :
    (computeStats s B T x mask).1 b c t = (computeStats s B T x' mask').1 b c t ∧
      (computeStats s B T x mask).2.2 b c t = (computeStats s B T x' mask').2.2 b c t ∧
      ((computeStats s B T x mask).2.1.map (fun p => p b c t) =
        (computeStats s B T x' mask').2.1.map (fun p => p b c t)) := by
  have hxm : ∀ b, b < B → ∀ c t, x b c t * mask b c t = x' b c t * mask' b c t :=
    fun b hb c t => by rw [hx b hb c t, hm b hb c t]
  have hsq : ∀ b, b < B → ∀ c t,
      (x b c t * mask b c t) ^ 2 = (x' b c t * mask' b c t) ^ 2 :=
    fun b hb c t => by rw [hxm b hb c t]
  cases hsc : s.scale with
  | true =>
      simp only [computeStats, hsc, if_true, Option.map_some']
      rw [statSum_congr_row s.statsIncludeBatch B T mask mask' hm b hb c t,
        statSum_congr_row s.statsIncludeBatch B T _ _ hxm b hb c t,
        statSum_congr_row s.statsIncludeBatch B T _ _ hsq b hb c t]
      exact ⟨rfl, rfl, rfl⟩
  | false =>
      simp only [computeStats, hsc, Bool.false_eq_true, if_false, Option.map_none']
      rw [statSum_congr_row s.statsIncludeBatch B T mask mask' hm b hb c t,
        statSum_congr_row s.statsIncludeBatch B T _ _ hxm b hb c t]
      exact ⟨rfl, rfl, trivial⟩

/-- The running-stats update only reads rows below B. -/
theorem updateRunningStats_congr (s : Norm) (B T : ℕ) (x x' mask mask' : Tensor3)
    (hx : ∀ b < B, ∀ c t, x b c t = x' b c t)
    (hm : ∀ b < B, ∀ c t, mask b c t = mask' b c t) :
    s.updateRunningStats B T x mask = s.updateRunningStats B T x' mask' := by
  cases htr : s.statsIncludeBatch with
  | false => simp [Norm.updateRunningStats, htr]
  | true =>
      simp only [Norm.updateRunningStats, htr, if_true]
      rw [computeStats_congr_true s htr B T x x' mask mask' hx hm]

end padertorch

namespace padertorch

/-- Estimate-branch normalization agrees row-wise below B. -/
theorem normalizeEstimate_congr_row (s : Norm) (sqrt : ℚ → ℚ) (B T : ℕ)
    (x x' mask mask' : Tensor3)
    (hx : ∀ b < B, ∀ c t, x b c t = x' b c t)
    (hm : ∀ b < B, ∀ c t, mask b c t = mask' b c t) (b : ℕ) (hb : b < B) (c t : ℕ) :
    (s.normalizeEstimate sqrt B T x mask).map (fun f => f b c t) =
      (s.normalizeEstimate sqrt B T x' mask').map (fun f => f b c t) := by
  obtain ⟨hmean, hn, hpow⟩ := computeStats_congr_row s B T x x' mask mask' hx hm b hb c t
  cases hsc : s.scale with
  | false =>
      simp only [Norm.normalizeEstimate, hsc, Bool.false_eq_true, if_false,
        Option.map_some']
      rw [hx b hb c t, hmean]
  | true =>
      obtain ⟨P, hP⟩ := computeStats_power_isSome s B T x mask hsc
      obtain ⟨P', hP'⟩ := computeStats_power_isSome s B T x' mask' hsc
      have hPp : P b c t = P' b c t := by
        rw [hP, hP'] at hpow
        simpa using hpow
      simp only [Norm.normalizeEstimate, hsc, if_true, hP, hP', Option.map_some']
      rw [hx b hb c t, hmean, hn, hPp]

/-- Replay-branch normalization agrees pointwise where the inputs do. -/
theorem normalizeReplay_congr_point (s : Norm) (sqrt : ℚ → ℚ) (x x' : Tensor3)
    (b c t : ℕ) (hxb : x b c t = x' b c t) :
    (s.normalizeReplay sqrt x).map (fun f => f b c t) =
      (s.normalizeReplay sqrt x').map (fun f => f b c t) := by
  cases hrm : s.running_mean with
  | none => simp [Norm.normalizeReplay, hrm]
  | some rm =>
      cases hsc : s.scale with
      | false => simp [Norm.normalizeReplay, hrm, hsc, hxb]
      | true =>
          cases hnt : s.num_tracked_values with
          | none => simp [Norm.normalizeReplay, hrm, hsc, hnt]
          | some nt =>
              cases hrp : s.running_power with
              | none => simp [Norm.normalizeReplay, hrm, hsc, hnt, hrp]
              | some rp => simp [Norm.normalizeReplay, hrm, hsc, hnt, hrp, hxb]

/-- The affine-and-mask tail is pointwise a function of its inputs. -/
theorem affineAndMask_congr_point (s : Norm) (mask mask' x x' : Tensor3)
    (b c t : ℕ) (hxb : x b c t = x' b c t) (hmb : mask b c t = mask' b c t) :
    affineAndMask s mask x b c t = affineAndMask s mask' x' b c t := by
  cases hls : s.learnable_scale <;> cases hlsh : s.learnable_shift <;>
    simp [affineAndMask, hls, hlsh, hxb, hmb]

/-- Norm.forward only reads input rows and lengths below the batch
size: the updated states coincide, and the outputs coincide on rows
below B. -/
theorem forward_congr (s : Norm) (sqrt : ℚ → ℚ) (B T : ℕ) (x x' : Tensor3)
    (sl sl' : Option (ℕ → ℕ))
    (hx : ∀ b < B, ∀ c t, x b c t = x' b c t)
    (hm : ∀ b < B, ∀ c t, computeMask sl b c t = computeMask sl' b c t) :
    stateAfter s sqrt B T x sl = stateAfter s sqrt B T x' sl' ∧
      ∀ b < B, ∀ c t,
        (s.forward sqrt B T x sl).map (fun r => r.1 b c t) =
          (s.forward sqrt B T x' sl').map (fun r => r.1 b c t) := by
  cases hbr : s.estimateBranch with
  | true =>
      obtain ⟨x2, hx2⟩ := Option.isSome_iff_exists.mp
        (normalizeEstimate_isSome s sqrt B T x (computeMask sl))
      obtain ⟨x2', hx2'⟩ := Option.isSome_iff_exists.mp
        (normalizeEstimate_isSome s sqrt B T x' (computeMask sl'))
      have hupd := updateRunningStats_congr s B T x x' (computeMask sl)
        (computeMask sl') hx hm
      have hx2eq : ∀ b < B, ∀ c t, x2 b c t = x2' b c t := by
        intro b hb c t
        have := normalizeEstimate_congr_row s sqrt B T x x' (computeMask sl)
          (computeMask sl') hx hm b hb c t
        rw [hx2, hx2'] at this
        simpa using this
      constructor
      · simp only [stateAfter, Norm.forward, hbr, if_true, hx2, hx2', hupd]
        cases hu : s.updateRunningStats B T x' (computeMask sl') <;> simp
      · intro b hb c t
        simp only [Norm.forward, hbr, if_true, hx2, hx2', hupd]
        cases hu : s.updateRunningStats B T x' (computeMask sl') with
        | none => simp
        | some s' =>
            simp only [Option.map_some']
            rw [affineAndMask_congr_point s (computeMask sl) (computeMask sl') x2 x2'
              b c t (hx2eq b hb c t) (hm b hb c t)]
  | false =>
      constructor
      · simp only [stateAfter, Norm.forward, hbr, Bool.false_eq_true, if_false]
        cases hr : s.normalizeReplay sqrt x with
        | none =>
            have : (s.normalizeReplay sqrt x').isSome = (s.normalizeReplay sqrt x).isSome := by
              simp only [Norm.normalizeReplay]
              cases s.running_mean <;> cases s.scale <;>
                cases s.num_tracked_values <;> cases s.running_power <;> simp
            rw [hr] at this
            cases hr' : s.normalizeReplay sqrt x' with
            | none => simp
            | some v => rw [hr'] at this; simp at this
        | some v =>
            have : (s.normalizeReplay sqrt x').isSome = (s.normalizeReplay sqrt x).isSome := by
              simp only [Norm.normalizeReplay]
              cases s.running_mean <;> cases s.scale <;>
                cases s.num_tracked_values <;> cases s.running_power <;> simp
            rw [hr] at this
            cases hr' : s.normalizeReplay sqrt x' with
            | none => rw [hr'] at this; simp at this
            | some v' => simp
      · intro b hb c t
        simp only [Norm.forward, hbr, Bool.false_eq_true, if_false]
        have hrow := normalizeReplay_congr_point s sqrt x x' b c t (hx b hb c t)
        cases hr : s.normalizeReplay sqrt x with
        | none =>
            rw [hr] at hrow
            cases hr' : s.normalizeReplay sqrt x' with
            | none => simp
            | some v' => rw [hr'] at hrow; simp at hrow
        | some v =>
            rw [hr] at hrow
            cases hr' : s.normalizeReplay sqrt x' with
            | none => rw [hr'] at hrow; simp at hrow
            | some v' =>
                rw [hr'] at hrow
                simp only [Option.map_some'] at hrow
                simp only [Option.map_some']
                rw [affineAndMask_congr_point s (computeMask sl) (computeMask sl') v v'
                  b c t (Option.some.inj hrow) (hm b hb c t)]
end padertorch

namespace padertorch

/-- A filter over a duplicate-free list whose predicate holds exactly
at k yields the singleton [k]. -/
theorem filter_eq_singleton_of_unique (l : List ℕ) (p : ℕ → Bool) (k : ℕ)
    (hmem : k ∈ l) (hnd : l.Nodup) (hp : ∀ j ∈ l, (p j = true ↔ j = k)) :
    l.filter p = [k] := by
  induction l with
  | nil => cases hmem
  | cons a l ih =>
      obtain ⟨hna, hndl⟩ := List.nodup_cons.mp hnd
      by_cases hpa : p a = true
      · have hak : a = k := (hp a (List.mem_cons_self a l)).mp hpa
        subst hak
        rw [List.filter_cons_of_pos hpa]
        have hnil : l.filter p = [] := by
          rw [List.filter_eq_nil]
          intro j hj hpj
          exact hna ((hp j (List.mem_cons_of_mem a hj)).mp hpj ▸ hj)
        rw [hnil]
      · rw [List.filter_cons_of_neg hpa]
        have hkl : k ∈ l := by
          rcases List.mem_cons.mp hmem with hka | hkl
          · exact absurd ((hp a (List.mem_cons_self a l)).mpr hka.symm) hpa
          · exact hkl
        exact ih hkl hndl (fun j hj => hp j (List.mem_cons_of_mem a hj))

/-- Concatenation of groups that all have batch size one: row b of the
result is row 0 of the b-th group. -/
theorem catB_singletons (gs : List (ℕ × Tensor3))
    (hall : ∀ g ∈ gs, g.1 = 1) (b : ℕ) (hb : b < gs.length) (c t : ℕ) :
    catB gs b c t = (gs.getD b (0, fun _ _ _ => 0)).2 0 c t := by
  induction gs generalizing b with
  | nil => simp at hb
  | cons g rest ih =>
      obtain ⟨n, tt⟩ := g
      have hn : n = 1 := hall (n, tt) (List.mem_cons_self _ _)
      subst hn
      cases b with
      | zero => simp [catB]
      | succ b' =>
          have hb' : b' < rest.length := by simpa using hb
          simp only [catB, List.getD_cons_succ]
          rw [if_neg (by omega), Nat.add_sub_cancel]
          exact ih (fun g hg => hall g (List.mem_cons_of_mem _ hg)) b' hb'

/-- A getD read below the length is a member. -/
theorem getD_mem_of_lt (l : List ℕ) (j : ℕ) (hj : j < l.length) : l.getD j 0 ∈ l := by
  rw [List.getD_eq_getElem l 0 hj]
  exact List.getElem_mem hj

end padertorch

namespace padertorch

/-- Evaluation of the per-condition loop when every condition class
present is a singleton: the loop succeeds, every group has batch size
one and is the forward output of that condition's normalizer on the
single matching row, the final per-condition states are the per-group
updated states, and conditions without a row keep their state. -/
theorem processGroups_singletons (sqrt : ℚ → ℚ) (T : ℕ) (xs : Tensor3)
    (sls : Option (ℕ → ℕ)) (conds : ℕ → ℕ) (B : ℕ) (cs : List ℕ) (norms : ℕ → Norm)
    (hnd : cs.Nodup)
    (hsing : ∀ c ∈ cs, ∃ k, groupIdx B conds c = [k])
    (hwf : ∀ c, NormWf (norms c)) :
    ∃ groups norms',
      processGroups sqrt T xs sls conds B norms cs = some (groups, norms') ∧
      groups.length = cs.length ∧
      (∀ g ∈ groups, g.1 = 1) ∧
      (∀ j, j < cs.length →
        ∃ k y n',
          groupIdx B conds (cs.getD j 0) = [k] ∧
          Norm.forward (norms (cs.getD j 0)) sqrt 1 T
              (fun i ci t => xs (([k] : List ℕ).getD i 0) ci t)
              (sls.map (fun l i => l (([k] : List ℕ).getD i 0))) = some (y, n') ∧
          groups.getD j (0, fun _ _ _ => 0) = (1, y) ∧
          norms' (cs.getD j 0) = n') ∧
      (∀ c0, c0 ∉ cs → norms' c0 = norms c0) := by
  induction cs generalizing norms with
  | nil =>
      exact ⟨[], norms, rfl, rfl, fun g hg => absurd hg (List.not_mem_nil g),
        fun j hj => absurd hj (by simp), fun c0 _ => rfl⟩
  | cons c rest ih =>
      obtain ⟨hcr, hndr⟩ := List.nodup_cons.mp hnd
      obtain ⟨k, hk⟩ := hsing c (List.mem_cons_self c rest)
      obtain ⟨y, n', hy⟩ := forward_isSome_of_wf (norms c) (hwf c) sqrt 1 T
        (fun i ci t => xs (([k] : List ℕ).getD i 0) ci t)
        (sls.map (fun l i => l (([k] : List ℕ).getD i 0)))
      have hwf1 : ∀ c', NormWf ((fun c' => if c' = c then n' else norms c') c') := by
        intro c'
        by_cases hc' : c' = c
        · simpa [hc'] using forward_preserves_wf (norms c) sqrt 1 T _ _ y n' hy (hwf c)
        · simpa [hc'] using hwf c'
      obtain ⟨groups', norms'', hrec, hlen, hones, hspec, huntouched⟩ :=
        ih (fun c' => if c' = c then n' else norms c') hndr
          (fun c0 hc0 => hsing c0 (List.mem_cons_of_mem c hc0)) hwf1
      have hstep : processGroups sqrt T xs sls conds B norms (c :: rest) =
          some ((1, y) :: groups', norms'') := by
        simp only [processGroups, hk, List.length_singleton, hy, hrec]
      refine ⟨(1, y) :: groups', norms'', hstep, by simp [hlen], ?_, ?_, ?_⟩
      · intro g hg
        rcases List.mem_cons.mp hg with hg1 | hg2
        · rw [hg1]
        · exact hones g hg2
      · intro j hj
        cases j with
        | zero =>
            refine ⟨k, y, n', by simpa using hk, by simpa using hy, by simp, ?_⟩
            have hcnr : norms'' c = (fun c' => if c' = c then n' else norms c') c :=
              huntouched c hcr
            simpa using hcnr
        | succ j' =>
            have hj' : j' < rest.length := by simpa using hj
            obtain ⟨k', y', n'', hk', hy', hg', hn''⟩ := hspec j' hj'
            have hmem' : rest.getD j' 0 ∈ rest := getD_mem_of_lt rest j' hj'
            have hne : rest.getD j' 0 ≠ c := fun he => hcr (he ▸ hmem')
            refine ⟨k', y', n'', by simpa using hk', ?_, by simpa using hg',
              by simpa using hn''⟩
            rw [List.getD_cons_succ]
            rw [if_neg hne] at hy'
            exact hy'
      · intro c0 hc0
        have hc0c : c0 ≠ c := fun he => hc0 (he ▸ List.mem_cons_self c rest)
        have hc0r : c0 ∉ rest := fun hr => hc0 (List.mem_cons_of_mem c hr)
        rw [huntouched c0 hc0r]
        simp [hc0c]

end padertorch

namespace padertorch

/-- The sort-index list is a permutation of 0..B-1. -/
theorem sortIdxList_length (B : ℕ) (cond : ℕ → ℕ) : (sortIdxList B cond).length = B :=
  (List.perm_insertionSort _ _).length_eq.trans (List.length_range B)

/-- The sort-index list has no duplicate entries. -/
theorem sortIdxList_nodup (B : ℕ) (cond : ℕ → ℕ) : (sortIdxList B cond).Nodup :=
  (List.perm_insertionSort _ _).nodup_iff.mpr (List.nodup_range B)

/-- Membership in the sort-index list is being a valid batch index. -/
theorem sortIdxList_mem (B : ℕ) (cond : ℕ → ℕ) (j : ℕ) :
    j ∈ sortIdxList B cond ↔ j < B :=
  (List.perm_insertionSort _ _).mem_iff.trans List.mem_range

/-- Entries of the sort-index list are valid batch indices. -/
theorem sortIdxList_getD_lt (B : ℕ) (cond : ℕ → ℕ) (k : ℕ) (hk : k < B) :
    (sortIdxList B cond).getD k 0 < B := by
  have hlen := sortIdxList_length B cond
  have hmem := getD_mem_of_lt (sortIdxList B cond) k (by rw [hlen]; exact hk)
  exact (sortIdxList_mem B cond _).mp hmem

/-- Distinct positions of the sort-index list hold distinct indices. -/
theorem sortIdxList_getD_inj (B : ℕ) (cond : ℕ → ℕ) (k1 k2 : ℕ)
    (h1 : k1 < B) (h2 : k2 < B)
    (he : (sortIdxList B cond).getD k1 0 = (sortIdxList B cond).getD k2 0) :
    k1 = k2 := by
  have hlen := sortIdxList_length B cond
  rw [List.getD_eq_getElem _ 0 (by rw [hlen]; exact h1),
    List.getD_eq_getElem _ 0 (by rw [hlen]; exact h2)] at he
  exact ((sortIdxList_nodup B cond).getElem_inj_iff).mp he

/-- With pairwise-distinct condition ids, the per-position condition
function of the sorted batch is injective below B. -/
theorem conds_inj (B : ℕ) (cond : ℕ → ℕ)
    (hinj : ∀ a < B, ∀ b < B, cond a = cond b → a = b) (k1 k2 : ℕ)
    (h1 : k1 < B) (h2 : k2 < B)
    (he : cond ((sortIdxList B cond).getD k1 0) = cond ((sortIdxList B cond).getD k2 0)) :
    k1 = k2 :=
  sortIdxList_getD_inj B cond k1 k2 h1 h2
    (hinj _ (sortIdxList_getD_lt B cond k1 h1) _ (sortIdxList_getD_lt B cond k2 h2) he)

/-- The per-position condition list of the sorted batch equals the
conditions mapped over the sort-index list. -/
theorem condsMap_eq (B : ℕ) (cond : ℕ → ℕ) :
    (List.range B).map (fun k => cond ((sortIdxList B cond).getD k 0)) =
      (sortIdxList B cond).map cond := by
  apply List.ext_getElem (by simp [sortIdxList_length])
  intro n h1 h2
  simp only [List.getElem_map, List.getElem_range]
  rw [List.getD_eq_getElem _ 0 (by simpa [sortIdxList_length] using h2)]

/-- The per-position condition list is sorted ascending. -/
theorem condsMap_sorted (B : ℕ) (cond : ℕ → ℕ) :
    ((List.range B).map (fun k => cond ((sortIdxList B cond).getD k 0))).Pairwise
      (fun a b => a ≤ b) := by
  rw [condsMap_eq]
  refine List.Pairwise.map cond ?_ (List.sorted_insertionSort _ _)
  rintro a b (h | ⟨h, -⟩)
  · exact le_of_lt h
  · exact le_of_eq h

/-- With pairwise-distinct condition ids the per-position condition
list has no duplicates. -/
theorem condsMap_nodup (B : ℕ) (cond : ℕ → ℕ)
    (hinj : ∀ a < B, ∀ b < B, cond a = cond b → a = b) :
    ((List.range B).map (fun k => cond ((sortIdxList B cond).getD k 0))).Nodup := by
  refine List.Nodup.map_on ?_ (List.nodup_range B)
  intro a ha b hb he
  exact conds_inj B cond hinj a b (List.mem_range.mp ha) (List.mem_range.mp hb) he

/-- With pairwise-distinct condition ids, conditions_set (sorted
deduplication) is exactly the per-position condition list. -/
theorem condSet_eq (B : ℕ) (cond : ℕ → ℕ)
    (hinj : ∀ a < B, ∀ b < B, cond a = cond b → a = b) :
    List.insertionSort (fun a b => a ≤ b)
        (((List.range B).map (fun k => cond ((sortIdxList B cond).getD k 0))).dedup) =
      (List.range B).map (fun k => cond ((sortIdxList B cond).getD k 0)) := by
  rw [List.Nodup.dedup (condsMap_nodup B cond hinj)]
  exact List.Sorted.insertionSort_eq (condsMap_sorted B cond)

/-- With pairwise-distinct condition ids each condition class present
in the batch consists of a single sorted position. -/
theorem groupIdx_singleton (B : ℕ) (cond : ℕ → ℕ)
    (hinj : ∀ a < B, ∀ b < B, cond a = cond b → a = b) (c : ℕ)
    (hc : c ∈ (List.range B).map (fun k => cond ((sortIdxList B cond).getD k 0))) :
    ∃ k, groupIdx B (fun k => cond ((sortIdxList B cond).getD k 0)) c = [k] := by
  obtain ⟨k0, hk0r, hk0⟩ := List.mem_map.mp hc
  refine ⟨k0, ?_⟩
  unfold groupIdx
  apply filter_eq_singleton_of_unique _ _ k0 hk0r (List.nodup_range B)
  intro j hj
  simp only [decide_eq_true_eq]
  constructor
  · intro hjc
    exact conds_inj B cond hinj j k0 (List.mem_range.mp hj) (List.mem_range.mp hk0r)
      (hjc.trans hk0.symm)
  · rintro rfl
    exact hk0

end padertorch


namespace padertorch

/-- C2 (amended): when the shared affine is absent and each condition
id occurs at most once in the batch, the output row of
ConditionedNorm.forward for example i is bit-identical to the output
the corresponding per-condition Norm produces on the single-row batch
holding only example i, the stored state of that condition's normalizer
equals the state after that isolated run, and conditions with no row in
the batch keep their normalizer state unchanged. -/
theorem conditioned_rows_match_isolated (cn : ConditionedNorm) (sqrt : ℚ → ℚ)
    (B T : ℕ) (x : Tensor3) (cond : ℕ → ℕ) (sl : Option (ℕ → ℕ)) (i : ℕ)
    (hls : cn.learnable_scale = none) (hlsh : cn.learnable_shift = none)
    (hinj : ∀ a < B, ∀ b < B, cond a = cond b → a = b)
    (hwf : ∀ c, NormWf (cn.norms c)) (hi : i < B) :
    ∃ y norms' yi ni,
      cn.forward sqrt B T x cond sl = some (y, { cn with norms := norms' }) ∧
      Norm.forward (cn.norms (cond i)) sqrt 1 T (fun _ c t => x i c t)
        (sl.map (fun l _ => l i)) = some (yi, ni) ∧
      (∀ c t, y i c t = yi 0 c t) ∧
      norms' (cond i) = ni ∧
      (∀ c0, (∀ j < B, cond j ≠ c0) → norms' c0 = cn.norms c0) := by
  obtain ⟨groups, norms', hpg, hglen, hones, hspec, huntouched⟩ :=
    processGroups_singletons sqrt T
      (fun k c t => x ((sortIdxList B cond).getD k 0) c t)
      (sl.map (fun l k => l ((sortIdxList B cond).getD k 0)))
      (fun k => cond ((sortIdxList B cond).getD k 0)) B
      ((List.range B).map (fun k => cond ((sortIdxList B cond).getD k 0)))
      cn.norms
      (condsMap_nodup B cond hinj)
      (fun c hc => groupIdx_singleton B cond hinj c hc)
      hwf
  have hMlen :
      ((List.range B).map (fun k => cond ((sortIdxList B cond).getD k 0))).length = B := by
    simp
  have hiS : i ∈ sortIdxList B cond := (sortIdxList_mem B cond i).mpr hi
  have hposlen : (sortIdxList B cond).indexOf i < (sortIdxList B cond).length :=
    List.indexOf_lt_length.mpr hiS
  have hposB : (sortIdxList B cond).indexOf i < B := by
    have := sortIdxList_length B cond
    omega
  have hgetpos : (sortIdxList B cond).getD ((sortIdxList B cond).indexOf i) 0 = i := by
    rw [List.getD_eq_getElem _ 0 hposlen]
    exact List.getElem_indexOf hposlen
  have hMgetpos :
      ((List.range B).map (fun k => cond ((sortIdxList B cond).getD k 0))).getD
        ((sortIdxList B cond).indexOf i) 0 = cond i := by
    rw [List.getD_eq_getElem _ 0 (by rw [hMlen]; exact hposB)]
    simp only [List.getElem_map, List.getElem_range]
    rw [hgetpos]
  obtain ⟨k, yg, ng, hk, hfg, hgget, hnorms'⟩ :=
    hspec ((sortIdxList B cond).indexOf i) (by rw [hMlen]; exact hposB)
  have hkpos : k = (sortIdxList B cond).indexOf i := by
    have hposmem : (sortIdxList B cond).indexOf i ∈
        groupIdx B (fun k => cond ((sortIdxList B cond).getD k 0))
          (((List.range B).map (fun k => cond ((sortIdxList B cond).getD k 0))).getD
            ((sortIdxList B cond).indexOf i) 0) := by
      rw [hMgetpos]
      unfold groupIdx
      refine List.mem_filter.mpr ⟨List.mem_range.mpr hposB, ?_⟩
      simp only [decide_eq_true_eq]
      rw [hgetpos]
    rw [hk] at hposmem
    exact (List.mem_singleton.mp hposmem).symm
  subst hkpos
  rw [hMgetpos] at hfg hnorms'
  have hx0 : ∀ b < 1, ∀ c t,
      x ((sortIdxList B cond).getD
        (([(sortIdxList B cond).indexOf i] : List ℕ).getD b 0) 0) c t = x i c t := by
    intro b hb c t
    interval_cases b
    simp only [List.getD_cons_zero]
    rw [hgetpos]
  have hm0 : ∀ b < 1, ∀ c t,
      computeMask ((sl.map (fun l k => l ((sortIdxList B cond).getD k 0))).map
        (fun l i' => l (([(sortIdxList B cond).indexOf i] : List ℕ).getD i' 0))) b c t =
      computeMask (sl.map (fun l _ => l i)) b c t := by
    intro b hb c t
    interval_cases b
    cases sl with
    | none => rfl
    | some l =>
        simp only [Option.map_some', computeMask, List.getD_cons_zero, hgetpos]
  have hcong := forward_congr (cn.norms (cond i)) sqrt 1 T
    (fun b ci t => x ((sortIdxList B cond).getD
      (([(sortIdxList B cond).indexOf i] : List ℕ).getD b 0) 0) ci t)
    (fun _ c t => x i c t)
    ((sl.map (fun l k => l ((sortIdxList B cond).getD k 0))).map
      (fun l i' => l (([(sortIdxList B cond).indexOf i] : List ℕ).getD i' 0)))
    (sl.map (fun l _ => l i)) hx0 hm0
  have hstate : stateAfter (cn.norms (cond i)) sqrt 1 T (fun _ c t => x i c t)
      (sl.map (fun l _ => l i)) = some ng := by
    rw [← hcong.1]
    rw [stateAfter, hfg]
    rfl
  obtain ⟨yi, ni, hiso⟩ : ∃ yi ni,
      Norm.forward (cn.norms (cond i)) sqrt 1 T (fun _ c t => x i c t)
        (sl.map (fun l _ => l i)) = some (yi, ni) := by
    rcases hiso' : Norm.forward (cn.norms (cond i)) sqrt 1 T (fun _ c t => x i c t)
        (sl.map (fun l _ => l i)) with _ | ⟨yi, ni⟩
    · rw [stateAfter, hiso'] at hstate
      simp at hstate
    · exact ⟨yi, ni, hiso'⟩
  have hni : ni = ng := by
    rw [stateAfter, hiso] at hstate
    simp only [Option.map_some'] at hstate
    exact Option.some.inj hstate
  have hout : ∀ c t, yg 0 c t = yi 0 c t := by
    intro c t
    have h := hcong.2 0 Nat.one_pos c t
    rw [hfg, hiso] at h
    simpa using h
  have hfwd : cn.forward sqrt B T x cond sl =
      some ((fun i' c t => catB groups ((sortIdxList B cond).indexOf i') c t),
        { cn with norms := norms' }) := by
    simp only [ConditionedNorm.forward]
    rw [condSet_eq B cond hinj]
    rw [hpg]
    simp only [hls, hlsh]
  refine ⟨_, norms', yi, ni, hfwd, hiso, ?_, ?_, ?_⟩
  · intro c t
    have hcat : catB groups ((sortIdxList B cond).indexOf i) c t = yi 0 c t := by
      rw [catB_singletons groups hones ((sortIdxList B cond).indexOf i)
        (by rw [hglen, hMlen]; exact hposB) c t]
      rw [hgget]
      exact hout c t
    exact hcat
  · rw [hnorms', hni]
  · intro c0 hc0
    apply huntouched
    intro hc0mem
    obtain ⟨k0, hk0r, hk0⟩ := List.mem_map.mp hc0mem
    exact hc0 _ (sortIdxList_getD_lt B cond k0 (List.mem_range.mp hk0r)) hk0
end padertorch


namespace padertorch

/-- Conditioned witness module: two conditions, no shared affine. -/
def cnW : ConditionedNorm :=
  { n_conditions := 2, norms := fun _ => sTrack,
    learnable_scale := none, learnable_shift := none }

/-- Witness for C2: the amended row-isolation theorem applied to a
concrete two-example batch with distinct conditions. -/
theorem conditioned_rows_match_isolated_witness :
    cnW.learnable_scale = none ∧ cnW.learnable_shift = none ∧
      (∃ y norms' yi ni,
        cnW.forward id 2 1 xW (fun i => i) none = some (y, { cnW with norms := norms' }) ∧
        Norm.forward (cnW.norms 0) id 1 1 (fun _ c t => xW 0 c t) none = some (yi, ni) ∧
        (∀ c t, y 0 c t = yi 0 c t) ∧
        norms' 0 = ni ∧
        (∀ c0, (∀ j < 2, j ≠ c0) → norms' c0 = cnW.norms c0)) := by
  refine ⟨rfl, rfl, ?_⟩
  exact conditioned_rows_match_isolated cnW id 2 1 xW (fun i => i) none 0 rfl rfl
    (fun a _ b _ h => h) (fun c => by simp [NormWf, cnW, sTrack, Norm.init])
    (by norm_num)

/-- Tracking per-condition normalizer without scale and without its own
affine, as ConditionedNorm constructs them. -/
def nT0 : Norm := Norm.init 1 true false (1/100000) (some (1/2)) none false

/-- Conditioned module with a single condition and no shared affine. -/
def cnDup : ConditionedNorm :=
  { n_conditions := 1, norms := fun _ => nT0,
    learnable_scale := none, learnable_shift := none }

/-- Batch of two rows with values 0 and 2. -/
def xPair : Tensor3 := fun b _ _ => if b = 0 then 0 else 2

/-- Counterexample to C2 as stated: with two examples sharing condition
0, the conditioned output row for example 0 is -1 (statistics are
computed over the whole condition group), while the per-condition
normalizer alone on the single-row batch of example 0 outputs 0; the
rows are not bit-identical. -/
theorem conditioned_row_differs_from_isolated :
    ((cnDup.forward id 2 1 xPair (fun _ => 0) none).map (fun r => r.1 0 0 0)) = some (-1) ∧
      ((Norm.forward nT0 id 1 1 (fun _ c t => xPair 0 c t) none).map (fun r => r.1 0 0 0))
        = some 0 ∧
      ((cnDup.forward id 2 1 xPair (fun _ => 0) none).map (fun r => r.1 0 0 0)) ≠
        ((Norm.forward nT0 id 1 1 (fun _ c t => xPair 0 c t) none).map (fun r => r.1 0 0 0)) := by
  have hsort : sortIdxList 2 (fun _ => 0) = [0, 1] := by decide
  have h1 : ((cnDup.forward id 2 1 xPair (fun _ => 0) none).map (fun r => r.1 0 0 0))
      = some (-1) := by
    simp [ConditionedNorm.forward, hsort, List.range_succ, cnDup, groupIdx,
      processGroups, Norm.forward, Norm.estimateBranch, Norm.freezed, nT0, Norm.init,
      Norm.normalizeEstimate, Norm.updateRunningStats, computeStats, statSum, computeMask,
      affineAndMask, catB, xPair, Finset.sum_range_succ]
  have h2 : ((Norm.forward nT0 id 1 1 (fun _ c t => xPair 0 c t) none).map
      (fun r => r.1 0 0 0)) = some 0 := by
    simp [Norm.forward, Norm.estimateBranch, Norm.freezed, nT0, Norm.init,
      Norm.normalizeEstimate, Norm.updateRunningStats, computeStats, statSum, computeMask,
      affineAndMask, xPair, Finset.sum_range_succ]
  refine ⟨h1, h2, ?_⟩
  rw [h1, h2]
  intro h
  have := Option.some.inj h
  norm_num at this

/-- Per-condition normalizer for the C1 failing input: statistics over
time only, no scale, no own affine. -/
def nPlain : Norm := Norm.init 1 false false (1/100000) none none false

/-- ConditionedNorm with a trained (nonzero) shared shift. -/
def cn1 : ConditionedNorm :=
  { n_conditions := 2, norms := fun _ => nPlain,
    learnable_scale := some (fun _ => 1), learnable_shift := some (fun _ => 1) }

/-- Conditions [1, 0]: the sort permutation swaps the two examples. -/
def cond1 : ℕ → ℕ := fun i => if i = 0 then 1 else 0

/-- Lengths [1, 2] in original example order. -/
def slen1 : ℕ → ℕ := fun b => if b = 0 then 1 else 2

/-- C1 (bug demonstration): example 0 has length 1, so position t=1 of
row 0 must be zero, but ConditionedNorm.forward returns -1 there: the
final mask is recomputed from the seq_len variable that was permuted
into sorted order ([2,1]) while the rows were restored to original
order, so the shared shift survives at padded positions. -/
theorem conditioned_shift_leaks_past_length :
    slen1 0 ≤ 1 ∧
      ((cn1.forward id 2 2 xW cond1 (some slen1)).map (fun r => r.1 0 0 1)) = some (-1) := by
  refine ⟨le_refl 1, ?_⟩
  have hsort : sortIdxList 2 cond1 = [1, 0] := by decide
  simp [ConditionedNorm.forward, hsort, cond1, List.range_succ, cn1, groupIdx,
    processGroups, Norm.forward, Norm.estimateBranch, Norm.freezed, nPlain, Norm.init,
    Norm.normalizeEstimate, Norm.updateRunningStats, computeStats, statSum, computeMask,
    affineAndMask, catB, xW, slen1, Finset.sum_range_succ]

end padertorch

namespace padertorch

/-- Witness for C3: the scenario theorem instantiated at channel 0. -/
theorem doctest_scenario_witness :
    (0:ℕ) < 10 ∧ runningMeanAt (stateAfter s3 id 3 4 x3 (some l3)) 0 = some 1 :=
  ⟨by norm_num, doctest_scenario.2.2.2.1 0 (by norm_num)⟩

end padertorch
